import Mathlib

/-!
# Verification of the tapes LLM proxy (Merkle-DAG conversation recorder)

Shallow embedding of the `tapes` repository: the Merkle node model and hasher
(`pkg/merkle/node.go`), the store interface (`pkg/merkle/storer.go`, with the
in-memory backend modelled from the spec since its implementation file is not
part of the provided sources), and the proxy handlers (`proxy/proxy.go`):
the conversation recorder `storeConversationTurn`, the streaming and
non-streaming chat paths, and the DAG inspection endpoint `handleGetNode`.

Machine integers are modelled as `Nat`/`Int` with explicit reduction modulo
`2 ^ 32` where the SHA-256 arithmetic wraps.
-/

set_option maxHeartbeats 1000000
set_option maxRecDepth 100000

/-! ## JSON values

Go node content is `any` holding JSON-expressible data (`map[string]any`,
slices, strings, numbers, booleans, null).  Numbers are modelled as `Int`:
every numeric value this repository ever stores is a Go `int`/`int64`
(message metrics), and the chunk schema of spec §6 declares them integers. -/

inductive Json where
  | null
  | bool (b : Bool)
  | num (n : Int)
  | str (s : String)
  | arr (elems : List Json)
  | obj (fields : List (String × Json))
deriving Repr, Inhabited

/-- Looks up a field of a JSON object (first occurrence), `none` on non-objects. -/
def Json.field (j : Json) (key : String) : Option Json :=
  match j with
  | .obj fields => (fields.find? (fun kv => kv.1 == key)).map (·.2)
  | _ => none

/-! ## Canonical JSON encoding (Go `encoding/json.Marshal`)

`computeHash` (node.go) hashes `json.Marshal` output.  Faithful points:
object (Go map) keys are emitted sorted; strings are escaped Go-style,
including the default HTML escaping of `<`, `>`, `&` and the escaping of
U+2028/U+2029; integers are rendered in decimal. -/

/-- The lowercase hexadecimal alphabet. -/
def hexAlphabet : List Char :=
  "0123456789abcdef".data

/-- The lowercase hex digit of a value (used with values `< 16`). -/
def hexDigit (n : Nat) : Char := hexAlphabet.getD (n % 16) '0'

/-- One character of a Go-JSON-escaped string (encoding/json `appendString`). -/
def escapeChar (c : Char) : String :=
  if c = '"' then "\\\""
  else if c = '\\' then "\\\\"
  else if c = '\n' then "\\n"
  else if c = '\r' then "\\r"
  else if c = '\t' then "\\t"
  else if c.toNat < 32 then
    "\\u00" ++ String.mk [hexDigit (c.toNat / 16), hexDigit (c.toNat % 16)]
  else if c = '<' then "\\u003c"
  else if c = '>' then "\\u003e"
  else if c = '&' then "\\u0026"
  else if c.toNat = 8232 then "\\u2028"
  else if c.toNat = 8233 then "\\u2029"
  else String.mk [c]

/-- A quoted, escaped Go JSON string literal. -/
def quoteString (s : String) : String :=
  "\"" ++ String.join (s.data.map escapeChar) ++ "\""

/-- Joins already-rendered JSON items with commas. -/
def joinComma : List String → String
  | [] => ""
  | [a] => a
  | a :: rest => a ++ "," ++ joinComma rest

/-- Lexicographic order on character lists by code point — on UTF-8 strings
this is exactly Go's byte comparison. -/
def charListLe : List Char → List Char → Bool
  | x :: xs, y :: ys =>
    if x.toNat = y.toNat then charListLe xs ys else Nat.blt x.toNat y.toNat
  | xs, _ => xs.isEmpty

/-- Go's `<=` on strings (byte order). -/
def strLe (a b : String) : Bool := charListLe a.data b.data

/-- Insertion step of the key sort applied to Go map keys before marshaling. -/
def insertSortedBy (key : α → String) (a : α) : List α → List α
  | [] => [a]
  | b :: rest => if strLe (key a) (key b) then a :: b :: rest else b :: insertSortedBy key a rest

/-- Sorts object members by key, byte-lexicographically, as Go sorts map keys. -/
def sortBy (key : α → String) : List α → List α
  | [] => []
  | a :: rest => insertSortedBy key a (sortBy key rest)

mutual

/-- Go `encoding/json.Marshal` on a JSON-expressible value.  Object members
are rendered first and then sorted by key (equivalent to sorting the keys
first, since the sort inspects only keys). -/
def marshalJson : Json → String
  | .null => "null"
  | .bool true => "true"
  | .bool false => "false"
  | .num n => toString n
  | .str s => quoteString s
  | .arr elems => "[" ++ joinComma (marshalElems elems) ++ "]"
  | .obj fields =>
    "\x7b" ++
      joinComma ((sortBy (fun kv => kv.1) (marshalMembers fields)).map
        (fun kv => quoteString kv.1 ++ ":" ++ kv.2)) ++
    "\x7d"

/-- Renders each array element. -/
def marshalElems : List Json → List String
  | [] => []
  | j :: rest => marshalJson j :: marshalElems rest

/-- Renders each object member's value, keeping its key. -/
def marshalMembers : List (String × Json) → List (String × String)
  | [] => []
  | (k, v) :: rest => (k, marshalJson v) :: marshalMembers rest

end

/-! ## UTF-8 bytes

Go hashes the UTF-8 bytes of the marshaled string. Bytes are `Nat < 256`. -/

/-- UTF-8 encoding of a single scalar value. -/
def charUtf8 (c : Char) : List Nat :=
  let n := c.toNat
  if n < 128 then [n]
  else if n < 2048 then [192 + n / 64, 128 + n % 64]
  else if n < 65536 then [224 + n / 4096, 128 + (n / 64) % 64, 128 + n % 64]
  else [240 + n / 262144, 128 + (n / 4096) % 64, 128 + (n / 64) % 64, 128 + n % 64]

/-- UTF-8 bytes of a string. -/
def utf8Bytes (s : String) : List Nat :=
  (s.data.map charUtf8).flatten

/-! ## SHA-256 (Go `crypto/sha256`, FIPS 180-4)

32-bit words are `Nat` reduced modulo `2 ^ 32`. -/

/-- Truncation to a 32-bit word. -/
def u32 (n : Nat) : Nat := n % 4294967296

/-- Right rotation of a 32-bit word (`0 < k < 32`, argument already 32-bit). -/
def rotr (k x : Nat) : Nat := u32 (x / 2 ^ k + x % 2 ^ k * 2 ^ (32 - k))

/-- 32-bit bitwise complement. -/
def compl32 (x : Nat) : Nat := 4294967295 - u32 x

/-- SHA-256 `Ch` function. -/
def shaCh (x y z : Nat) : Nat := (x &&& y) ^^^ (compl32 x &&& z)

/-- SHA-256 `Maj` function. -/
def shaMaj (x y z : Nat) : Nat := (x &&& y) ^^^ (x &&& z) ^^^ (y &&& z)

/-- SHA-256 big sigma 0. -/
def bigSigma0 (x : Nat) : Nat := rotr 2 x ^^^ rotr 13 x ^^^ rotr 22 x

/-- SHA-256 big sigma 1. -/
def bigSigma1 (x : Nat) : Nat := rotr 6 x ^^^ rotr 11 x ^^^ rotr 25 x

/-- SHA-256 small sigma 0. -/
def smallSigma0 (x : Nat) : Nat := rotr 7 x ^^^ rotr 18 x ^^^ x / 2 ^ 3

/-- SHA-256 small sigma 1. -/
def smallSigma1 (x : Nat) : Nat := rotr 17 x ^^^ rotr 19 x ^^^ x / 2 ^ 10

/-- The 64 SHA-256 round constants (FIPS 180-4 §4.2.2, decimal). -/
def shaK : List Nat :=
  [1116352408, 1899447441, 3049323471, 3921009573, 961987163, 1508970993,
   2453635748, 2870763221, 3624381080, 310598401, 607225278, 1426881987,
   1925078388, 2162078206, 2614888103, 3248222580, 3835390401, 4022224774,
   264347078, 604807628, 770255983, 1249150122, 1555081692, 1996064986,
   2554220882, 2821834349, 2952996808, 3210313671, 3336571891, 3584528711,
   113926993, 338241895, 666307205, 773529912, 1294757372, 1396182291,
   1695183700, 1986661051, 2177026350, 2456956037, 2730485921, 2820302411,
   3259730800, 3345764771, 3516065817, 3600352804, 4094571909, 275423344,
   430227734, 506948616, 659060556, 883997877, 958139571, 1322822218,
   1537002063, 1747873779, 1955562222, 2024104815, 2227730452, 2361852424,
   2428436474, 2756734187, 3204031479, 3329325298]

/-- The SHA-256 working state: eight 32-bit words. -/
structure H8 where
  a : Nat
  b : Nat
  c : Nat
  d : Nat
  e : Nat
  f : Nat
  g : Nat
  h : Nat
deriving Repr, DecidableEq

/-- The SHA-256 initial hash value (FIPS 180-4 §5.3.3, decimal). -/
def shaInit : H8 :=
  ⟨1779033703, 3144134277, 1013904242, 2773480762,
   1359893119, 2600822924, 528734635, 1541459225⟩

/-- Chunk splitting with a structural fuel argument (one chunk consumes at
least one element, so the list length is enough fuel). -/
def chunkListGo (n : Nat) : Nat → List Nat → List (List Nat)
  | 0, _ => []
  | _, [] => []
  | fuel + 1, l => if n = 0 then [] else l.take n :: chunkListGo n fuel (l.drop n)

/-- Splits a byte list into chunks of `n` bytes (`n > 0`; the padded message
length is a multiple of `n` at every use). -/
def chunkList (n : Nat) (l : List Nat) : List (List Nat) :=
  chunkListGo n l.length l

/-- Big-endian 64-bit length field of the SHA-256 padding, from a bit count. -/
def lenBytes (n : Nat) : List Nat :=
  [n / 2 ^ 56 % 256, n / 2 ^ 48 % 256, n / 2 ^ 40 % 256, n / 2 ^ 32 % 256,
   n / 2 ^ 24 % 256, n / 2 ^ 16 % 256, n / 2 ^ 8 % 256, n % 256]

/-- SHA-256 message padding: `0x80`, zeros to 56 mod 64, 8-byte bit length. -/
def sha256pad (msg : List Nat) : List Nat :=
  msg ++ [128] ++ List.replicate ((119 - msg.length % 64) % 64) 0 ++ lenBytes (8 * msg.length)

/-- A 32-bit word from four big-endian bytes. -/
def wordOfBytes : List Nat → Nat
  | [b0, b1, b2, b3] => b0 * 2 ^ 24 + b1 * 2 ^ 16 + b2 * 2 ^ 8 + b3
  | _ => 0

/-- The 64-entry message schedule of one 512-bit block. -/
def schedule (block : List Nat) : List Nat :=
  let w0 := (chunkList 4 block).map wordOfBytes
  (List.range 48).foldl
    (fun w i =>
      w ++ [u32 (smallSigma1 (w.getD (i + 14) 0) + w.getD (i + 9) 0 +
                 smallSigma0 (w.getD (i + 1) 0) + w.getD i 0)])
    w0

/-- One SHA-256 round: absorbs a round constant plus schedule word. -/
def shaRound (st : H8) (kw : Nat × Nat) : H8 :=
  let t1 := u32 (st.h + bigSigma1 st.e + shaCh st.e st.f st.g + kw.1 + kw.2)
  let t2 := u32 (bigSigma0 st.a + shaMaj st.a st.b st.c)
  ⟨u32 (t1 + t2), st.a, st.b, st.c, u32 (st.d + t1), st.e, st.f, st.g⟩

/-- Compression of one 512-bit block into the running hash value. -/
def shaBlock (st : H8) (block : List Nat) : H8 :=
  let w := schedule block
  let r := (shaK.zip w).foldl shaRound st
  ⟨u32 (st.a + r.a), u32 (st.b + r.b), u32 (st.c + r.c), u32 (st.d + r.d),
   u32 (st.e + r.e), u32 (st.f + r.f), u32 (st.g + r.g), u32 (st.h + r.h)⟩

/-- Big-endian bytes of one 32-bit word. -/
def wordBytes (w : Nat) : List Nat :=
  [w / 2 ^ 24 % 256, w / 2 ^ 16 % 256, w / 2 ^ 8 % 256, w % 256]

/-- The 32 digest bytes of a final SHA-256 state. -/
def stateBytes (st : H8) : List Nat :=
  wordBytes st.a ++ wordBytes st.b ++ wordBytes st.c ++ wordBytes st.d ++
  wordBytes st.e ++ wordBytes st.f ++ wordBytes st.g ++ wordBytes st.h

/-- SHA-256 digest (32 bytes) of a byte message. -/
def sha256 (msg : List Nat) : List Nat :=
  stateBytes ((chunkList 64 (sha256pad msg)).foldl shaBlock shaInit)

/-! ## Lowercase hex encoding (Go `encoding/hex.EncodeToString`) -/

/-- Two hex characters per byte, high nibble first. -/
def hexChars : List Nat → List Char
  | [] => []
  | b :: bs => hexDigit (b / 16) :: hexDigit (b % 16) :: hexChars bs

/-- Lowercase hex string of a SHA-256 digest. -/
def sha256hex (msg : List Nat) : String :=
  String.mk (hexChars (sha256 msg))

/-! ## Merkle node model (`pkg/merkle/node.go`) -/

/-- `merkle.Node`: a content-addressed DAG node. -/
structure Node where
  Hash : String
  ParentHash : Option String
  Content : Json
deriving Repr

/-- The hash pre-image of node.go `computeHash`: `json.Marshal` of the `input`
struct.  The `input` struct itself is not among the provided sources; its
field layout (`content` first, `parent` second, absent parent as the empty
string) follows spec §4.1 and the zero-value assignment in `computeHash`. -/
def marshalHashInput (content : Json) (parentHash : Option String) : String :=
  "\x7b\"content\":" ++ marshalJson content ++
    ",\"parent\":" ++ quoteString (parentHash.getD "") ++ "\x7d"

/-- node.go `computeHash`: lowercase-hex SHA-256 of the canonical JSON pre-image. -/
def computeHash (content : Json) (parentHash : Option String) : String :=
  sha256hex (utf8Bytes (marshalHashInput content parentHash))

/-- node.go `NewNode`: builds a node, linking `ParentHash` to the parent's
hash when a parent is given, and computes the content-addressed hash. -/
def NewNode (content : Json) (parent : Option Node) : Node :=
  let ph := parent.map (·.Hash)
  { Hash := computeHash content ph, ParentHash := ph, Content := content }

/-! ## Chat data model (`pkg/llm`) -/

/-- `llm.Message`: one conversation message. -/
structure Message where
  role : String
  content : String
  images : List String
deriving Repr, DecidableEq, Inhabited

/-- `llm.ChatRequest` (Ollama-compatible).  The `Options` generation-parameter
struct is not modelled: it holds floating-point sampling knobs that the proxy
never reads and that appear in no stored content. -/
structure ChatRequest where
  model : String
  messages : List Message
  stream : Option Bool
  format : String
  keepAlive : String
deriving Repr, DecidableEq, Inhabited

/-- `llm.StreamChunk`: one line of a streaming response.  `createdAt` keeps the
wire string; Go parses it into a `time.Time`. -/
structure StreamChunk where
  model : String
  createdAt : String
  message : Message
  done : Bool
  totalDuration : Int
  loadDuration : Int
  promptEvalCount : Int
  promptEvalDuration : Int
  evalCount : Int
  evalDuration : Int
deriving Repr, DecidableEq, Inhabited

/-- `llm.ChatResponse`: a complete chat response. -/
structure ChatResponse where
  model : String
  createdAt : String
  message : Message
  done : Bool
  totalDuration : Int
  loadDuration : Int
  promptEvalCount : Int
  promptEvalDuration : Int
  evalCount : Int
  evalDuration : Int
  context : List Int
deriving Repr, DecidableEq, Inhabited

/-! ## JSON parsing (Go `encoding/json.Unmarshal`)

A recursive-descent parser over the character list, with a fuel argument for
termination (the fuel passed at top level always suffices: it bounds the
recursion depth, which is at most twice the input length).  Deviations from
Go, none load-bearing for the claims: numbers are integers only (fractional
or exponent forms are rejected; every numeric field of the chunk schema is an
integer), `\u` escapes of unpaired surrogates map to U+0000 rather than
U+FFFD, and surrogate pairs are not combined. -/

/-- JSON insignificant whitespace. -/
def jsonWs : Char → Bool
  | ' ' => true
  | '\t' => true
  | '\n' => true
  | '\r' => true
  | _ => false

/-- Drops leading JSON whitespace. -/
def skipWs (cs : List Char) : List Char := cs.dropWhile jsonWs

/-- Value of one hex digit. -/
def hexVal (c : Char) : Option Nat :=
  if '0' ≤ c ∧ c ≤ '9' then some (c.toNat - 48)
  else if 'a' ≤ c ∧ c ≤ 'f' then some (c.toNat - 87)
  else if 'A' ≤ c ∧ c ≤ 'F' then some (c.toNat - 55)
  else none

/-- Body of a JSON string literal, after the opening quote; returns the
decoded characters and the remaining input after the closing quote. -/
def parseStrChars : List Char → Option (List Char × List Char)
  | [] => none
  | '"' :: rest => some ([], rest)
  | '\\' :: esc =>
    (match esc with
     | '"' :: rest => (parseStrChars rest).map (fun p => ('"' :: p.1, p.2))
     | '\\' :: rest => (parseStrChars rest).map (fun p => ('\\' :: p.1, p.2))
     | '/' :: rest => (parseStrChars rest).map (fun p => ('/' :: p.1, p.2))
     | 'b' :: rest => (parseStrChars rest).map (fun p => ('\x08' :: p.1, p.2))
     | 'f' :: rest => (parseStrChars rest).map (fun p => ('\x0c' :: p.1, p.2))
     | 'n' :: rest => (parseStrChars rest).map (fun p => ('\n' :: p.1, p.2))
     | 'r' :: rest => (parseStrChars rest).map (fun p => ('\r' :: p.1, p.2))
     | 't' :: rest => (parseStrChars rest).map (fun p => ('\t' :: p.1, p.2))
     | 'u' :: h1 :: h2 :: h3 :: h4 :: rest =>
       (match hexVal h1, hexVal h2, hexVal h3, hexVal h4 with
        | some a, some b, some c, some d =>
          (parseStrChars rest).map
            (fun p => (Char.ofNat (a * 4096 + b * 256 + c * 16 + d) :: p.1, p.2))
        | _, _, _, _ => none)
     | _ => none)
  | c :: rest =>
    if c.toNat < 32 then none
    else (parseStrChars rest).map (fun p => (c :: p.1, p.2))

/-- Decimal value of a digit run. -/
def digitsToNat (ds : List Char) : Nat :=
  ds.foldl (fun n c => n * 10 + (c.toNat - 48)) 0

/-- Unsigned integer literal: digit run, no leading zero, and — modelling
restriction — no fraction or exponent. -/
def parseNumCore (cs : List Char) : Option (Nat × List Char) :=
  match cs with
  | [] => none
  | c :: _ =>
    if !c.isDigit then none
    else
      let ds := cs.takeWhile Char.isDigit
      let rest := cs.dropWhile Char.isDigit
      if 1 < ds.length ∧ c = '0' then none
      else
        match rest with
        | '.' :: _ => none
        | 'e' :: _ => none
        | 'E' :: _ => none
        | _ => some (digitsToNat ds, rest)

/-- JSON number literal (integral). -/
def parseNumber (cs : List Char) : Option (Json × List Char) :=
  match cs with
  | '-' :: rest => (parseNumCore rest).map (fun p => (Json.num (-(p.1 : Int)), p.2))
  | _ => (parseNumCore cs).map (fun p => (Json.num (p.1 : Int), p.2))

mutual

/-- One JSON value, fuel-bounded. -/
def parseVal : Nat → List Char → Option (Json × List Char)
  | 0, _ => none
  | fuel + 1, cs =>
    match skipWs cs with
    | 'n' :: 'u' :: 'l' :: 'l' :: rest => some (.null, rest)
    | 't' :: 'r' :: 'u' :: 'e' :: rest => some (.bool true, rest)
    | 'f' :: 'a' :: 'l' :: 's' :: 'e' :: rest => some (.bool false, rest)
    | '"' :: rest => (parseStrChars rest).map (fun p => (Json.str (String.mk p.1), p.2))
    | '[' :: rest =>
      (match skipWs rest with
       | ']' :: rest2 => some (.arr [], rest2)
       | _ => (parseElems fuel rest).map (fun p => (Json.arr p.1, p.2)))
    | '{' :: rest =>
      (match skipWs rest with
       | '}' :: rest2 => some (.obj [], rest2)
       | _ => (parseMembers fuel rest).map (fun p => (Json.obj p.1, p.2)))
    | cs2 => parseNumber cs2

/-- Comma-separated array elements up to the closing bracket. -/
def parseElems : Nat → List Char → Option (List Json × List Char)
  | 0, _ => none
  | fuel + 1, cs =>
    match parseVal fuel cs with
    | none => none
    | some (v, rest) =>
      match skipWs rest with
      | ',' :: rest2 => (parseElems fuel rest2).map (fun p => (v :: p.1, p.2))
      | ']' :: rest2 => some ([v], rest2)
      | _ => none

/-- Comma-separated object members up to the closing brace. -/
def parseMembers : Nat → List Char → Option (List (String × Json) × List Char)
  | 0, _ => none
  | fuel + 1, cs =>
    match skipWs cs with
    | '"' :: rest =>
      (match parseStrChars rest with
       | none => none
       | some (k, rest2) =>
         match skipWs rest2 with
         | ':' :: rest3 =>
           (match parseVal fuel rest3 with
            | none => none
            | some (v, rest4) =>
              match skipWs rest4 with
              | ',' :: rest5 =>
                (parseMembers fuel rest5).map (fun p => ((String.mk k, v) :: p.1, p.2))
              | '}' :: rest5 => some ([(String.mk k, v)], rest5)
              | _ => none)
         | _ => none)
    | _ => none

end

/-- Parses a complete JSON text: one value plus trailing whitespace only. -/
def parseJsonText (s : String) : Option Json :=
  match parseVal (2 * s.length + 4) s.data with
  | some (j, rest) => if (skipWs rest).isEmpty then some j else none
  | none => none

/-! ## Decoding JSON into the chunk struct (Go `json.Unmarshal` semantics)

Absent fields and JSON `null` leave the zero value; a present field of the
wrong shape is an error (the whole unmarshal fails); on duplicate keys the
last occurrence wins; unknown keys are ignored.  Not modelled: Go's
case-insensitive field-name fallback and `int64` range checks, and the
RFC3339 validation of `created_at` (any string is accepted here). -/

/-- The JSON value assigned to a struct field key, last occurrence winning. -/
def objField (fields : List (String × Json)) (key : String) : Option Json :=
  ((fields.reverse).find? (fun kv => kv.1 == key)).map (·.2)

/-- A string field: absent/null is the zero value, non-strings are errors. -/
def decodeStr : Option Json → Option String
  | none => some ""
  | some .null => some ""
  | some (.str s) => some s
  | _ => none

/-- A bool field. -/
def decodeBool : Option Json → Option Bool
  | none => some false
  | some .null => some false
  | some (.bool b) => some b
  | _ => none

/-- An integer field. -/
def decodeInt : Option Json → Option Int
  | none => some 0
  | some .null => some 0
  | some (.num n) => some n
  | _ => none

/-- A `[]string` field. -/
def decodeStrList : Option Json → Option (List String)
  | none => some []
  | some .null => some []
  | some (.arr xs) =>
    xs.foldr
      (fun x acc =>
        match x, acc with
        | Json.str s, some l => some (s :: l)
        | _, _ => none)
      (some [])
  | _ => none

/-- An `llm.Message` field. -/
def decodeMessage : Option Json → Option Message
  | none => some ⟨"", "", []⟩
  | some .null => some ⟨"", "", []⟩
  | some (.obj fields) => do
    let role ← decodeStr (objField fields "role")
    let content ← decodeStr (objField fields "content")
    let images ← decodeStrList (objField fields "images")
    some ⟨role, content, images⟩
  | _ => none

/-- `json.Unmarshal` of one line into `llm.StreamChunk`. -/
def decodeStreamChunk (j : Json) : Option StreamChunk :=
  match j with
  | .obj fields => do
    let model ← decodeStr (objField fields "model")
    let createdAt ← decodeStr (objField fields "created_at")
    let message ← decodeMessage (objField fields "message")
    let done ← decodeBool (objField fields "done")
    let totalDuration ← decodeInt (objField fields "total_duration")
    let loadDuration ← decodeInt (objField fields "load_duration")
    let promptEvalCount ← decodeInt (objField fields "prompt_eval_count")
    let promptEvalDuration ← decodeInt (objField fields "prompt_eval_duration")
    let evalCount ← decodeInt (objField fields "eval_count")
    let evalDuration ← decodeInt (objField fields "eval_duration")
    some ⟨model, createdAt, message, done, totalDuration, loadDuration,
          promptEvalCount, promptEvalDuration, evalCount, evalDuration⟩
  | _ => none

/-- proxy.go:217 `json.Unmarshal(line, &chunk)`. -/
def unmarshalStreamChunk (line : String) : Option StreamChunk :=
  (parseJsonText line).bind decodeStreamChunk

/-! ## Node content built by the recorder (proxy.go:337-372) -/

/-- The content map stored for one request message (proxy.go:338-343).
Fields are listed in the order of the Go map literal; `marshalJson` sorts. -/
def msgNodeContent (model : String) (msg : Message) : Json :=
  Json.obj [("type", Json.str "message"), ("role", Json.str msg.role),
            ("content", Json.str msg.content), ("model", Json.str model)]

/-- The content map stored for the response message (proxy.go:360-372). -/
def respNodeContent (resp : ChatResponse) : Json :=
  Json.obj [("type", Json.str "message"), ("role", Json.str resp.message.role),
            ("content", Json.str resp.message.content), ("model", Json.str resp.model),
            ("metrics", Json.obj
              [("total_duration_ns", Json.num resp.totalDuration),
               ("prompt_eval_count", Json.num resp.promptEvalCount),
               ("prompt_eval_duration_ns", Json.num resp.promptEvalDuration),
               ("eval_count", Json.num resp.evalCount),
               ("eval_duration_ns", Json.num resp.evalDuration)])]

/-! ## Contexts

Only the provenance of a `context.Context` is modelled: the request-scoped
fiber context versus the detached `context.Background()`.  Cancellation is
not modelled; no store call in this development inspects the context. -/

/-- Provenance of a Go context. -/
inductive Ctx where
  | background
  | client
deriving Repr, DecidableEq

/-! ## The store

`merkle.Storer.Put` is an interface (storer.go); the in-memory backend that
`proxy.New` installs is not among the provided sources. -/

/-- Modelled from the spec: the in-memory Storer backend (its implementation
file is not under the provided sources) is "a mapping from `hash → Node`,
guarded by a lock"; `put` is "insert if absent; if present (by `hash`),
return without error" (spec §4.2).  The mapping is modelled as a list keyed
by hash; concurrency as an arbitrary sequential interleaving of the
lock-serialized puts. -/
def memInsert (s : List Node) (n : Node) : List Node :=
  if s.any (fun m => m.Hash == n.Hash) then s else n :: s

/-- Modelled from the spec: the full `Put` entry point — a nil node fails
with `InvalidArgument` ("Nil/empty nodes fail", spec §4.2); otherwise
insert-if-absent, never an error. -/
def memStorePut (s : List Node) (n : Option Node) : Except String (List Node) :=
  match n with
  | none => Except.error "nil node"
  | some node => Except.ok (memInsert s node)

/-- The in-memory `Put` in the shape the proxy consumes (context unused). -/
def memPut : Ctx → List Node → Node → Except String (List Node) :=
  fun _ s n => Except.ok (memInsert s n)

/-- Number of stored records carrying a given hash. -/
def countHash (s : List Node) (h : String) : Nat :=
  (s.filter (fun m => m.Hash == h)).length

/-- `k` successive puts of the same node (the linearization of any
interleaving of `k` concurrent puts, since each put holds the lock). -/
def putN : Nat → List Node → Node → List Node
  | 0, s, _ => s
  | k + 1, s, n => putN k (memInsert s n) n

/-! ## The conversation recorder (proxy.go:331-385 `storeConversationTurn`)

The store is abstracted exactly as the proxy sees it: a `Put` function over
a store state that may fail.  Go wraps put errors with `fmt.Errorf` context;
error values are modelled opaquely. -/

/-- The message loop of `storeConversationTurn` (proxy.go:337-357): one node
per request message, each linked to the previous; returns the final parent. -/
def storeMessagesLoop (ctx : Ctx) (put : Ctx → σ → Node → Except ε σ) (model : String) :
    List Message → Option Node → σ → σ × Except ε (Option Node)
  | [], parent, s => (s, Except.ok parent)
  | msg :: rest, parent, s =>
    let node := NewNode (msgNodeContent model msg) parent
    match put ctx s node with
    | Except.error e => (s, Except.error e)
    | Except.ok s' => storeMessagesLoop ctx put model rest (some node) s'

/-- proxy.go `storeConversationTurn`: stores the message chain, then the
response node on top, and returns the head hash. -/
def storeConversationTurn (ctx : Ctx) (put : Ctx → σ → Node → Except ε σ)
    (req : ChatRequest) (resp : ChatResponse) (s : σ) : σ × Except ε String :=
  match storeMessagesLoop ctx put req.model req.messages none s with
  | (s', Except.error e) => (s', Except.error e)
  | (s', Except.ok parent) =>
    let responseNode := NewNode (respNodeContent resp) parent
    match put ctx s' responseNode with
    | Except.error e => (s', Except.error e)
    | Except.ok s'' => (s'', Except.ok responseNode.Hash)

/-- The chain of nodes `storeConversationTurn` constructs from the request
messages: the specification companion of `storeMessagesLoop`, built by the
same `NewNode` calls. -/
def messageChain (model : String) : List Message → Option Node → List Node
  | [], _ => []
  | msg :: rest, parent =>
    let node := NewNode (msgNodeContent model msg) parent
    node :: messageChain model rest (some node)

/-- The `parent` value left by the message loop: the last chain node, or the
incoming parent when there were no messages. -/
def chainEnd (chain : List Node) (parent : Option Node) : Option Node :=
  match chain with
  | [] => parent
  | n :: rest => chainEnd rest (some n)

/-- All `k + 1` nodes of one recorded turn, oldest first, head node last. -/
def turnChain (req : ChatRequest) (resp : ChatResponse) : List Node :=
  let chain := messageChain req.model req.messages none
  chain ++ [NewNode (respNodeContent resp) (chainEnd chain none)]

/-- Fallback node for index-based statements. -/
def nodeDefault : Node := { Hash := "", ParentHash := none, Content := Json.null }

/-! ## Response rendering (fiber `c.JSON` via `encoding/json`) -/

/-- `llm.ErrorResponse` as sent by `c.JSON` (error.go). -/
def errorJSON (msg : String) : String :=
  "\x7b\"error\":" ++ quoteString msg ++ "\x7d"

/-- `llm.Message` marshaled (options.go struct tags; `images` omitempty). -/
def messageJSON (m : Message) : String :=
  "\x7b\"role\":" ++ quoteString m.role ++ ",\"content\":" ++ quoteString m.content ++
    (if m.images.isEmpty then ""
     else ",\"images\":" ++ marshalJson (Json.arr (m.images.map Json.str))) ++ "\x7d"

/-- An omitempty integer member: omitted exactly when zero. -/
def omitIntField (key : String) (v : Int) : String :=
  if v = 0 then "" else "," ++ quoteString key ++ ":" ++ toString v

/-- `llm.ChatResponse` marshaled per its struct tags (error.go): metrics and
`context` are omitempty; `created_at` round-trips as its wire string. -/
def chatResponseJSON (r : ChatResponse) : String :=
  "\x7b\"model\":" ++ quoteString r.model ++ ",\"created_at\":" ++ quoteString r.createdAt ++
    ",\"message\":" ++ messageJSON r.message ++ ",\"done\":" ++ (if r.done then "true" else "false") ++
    omitIntField "total_duration" r.totalDuration ++
    omitIntField "load_duration" r.loadDuration ++
    omitIntField "prompt_eval_count" r.promptEvalCount ++
    omitIntField "prompt_eval_duration" r.promptEvalDuration ++
    omitIntField "eval_count" r.evalCount ++
    omitIntField "eval_duration" r.evalDuration ++
    (if r.context.isEmpty then ""
     else ",\"context\":" ++ marshalJson (Json.arr (r.context.map Json.num))) ++ "\x7d"

/-- `merkle.Node` marshaled per its struct tags (node.go). -/
def nodeJSON (n : Node) : String :=
  "\x7b\"hash\":" ++ quoteString n.Hash ++
    ",\"parent_hash\":" ++ (match n.ParentHash with
                            | none => "null"
                            | some p => quoteString p) ++
    ",\"content\":" ++ marshalJson n.Content ++ "\x7d"

/-! ## The streaming scanner and loop (proxy.go:204-269) -/

/-- `bufio.ScanLines` strips one trailing carriage return from each line. -/
def dropCR (l : String) : String :=
  match l.data.getLast? with
  | some '\r' => String.mk l.data.dropLast
  | _ => l

/-- Splits a character list at newlines (every segment kept, as Go's
`bytes.Split` would). -/
def splitNl (cur : List Char) : List Char → List String
  | [] => [String.mk cur.reverse]
  | '\n' :: rest => String.mk cur.reverse :: splitNl [] rest
  | c :: rest => splitNl (c :: cur) rest

/-- The token sequence `bufio.Scanner` with `ScanLines` yields on a body:
split at newlines, no empty final token after a terminal newline, `\r`
stripped before `\n`. -/
def scanLines (body : String) : List String :=
  let parts := splitNl [] body.data
  (if parts.getLast? = some "" then parts.dropLast else parts).map dropCR

/-- The loop state of `handleStreamingChat`: chunk-write index, bytes written
toward the client, bytes the client actually received, the `fullContent`
accumulator, and the materialized final response. -/
structure StreamAcc where
  idx : Nat
  written : String
  delivered : String
  fullContent : String
  finalResp : Option ChatResponse
deriving Repr, DecidableEq

/-- The final response materialized on a `done` chunk (proxy.go:237-248):
note the constant `"assistant"` role and the full accumulated content. -/
def finalRespOf (chunk : StreamChunk) (full : String) : ChatResponse :=
  { model := chunk.model, createdAt := chunk.createdAt,
    message := { role := "assistant", content := full, images := [] },
    done := true,
    totalDuration := chunk.totalDuration, loadDuration := chunk.loadDuration,
    promptEvalCount := chunk.promptEvalCount, promptEvalDuration := chunk.promptEvalDuration,
    evalCount := chunk.evalCount, evalDuration := chunk.evalDuration, context := [] }

/-- One iteration of the scan loop (proxy.go:210-250): empty lines are
skipped; unparseable lines are logged and skipped; otherwise the content is
accumulated, the original line plus `\n` is written and flushed (the write's
error result is discarded, so `delivered` tracks what a possibly-disconnected
client receives while `written` tracks the proxy's writes), and a `done`
chunk materializes the final response. -/
def streamStep (connAlive : Nat → Bool) (st : StreamAcc) (line : String) : StreamAcc :=
  if line = "" then st
  else
    match unmarshalStreamChunk line with
    | none => st
    | some chunk =>
      let full := st.fullContent ++ chunk.message.content
      { idx := st.idx + 1,
        written := st.written ++ line ++ "\n",
        delivered := if connAlive st.idx then st.delivered ++ line ++ "\n" else st.delivered,
        fullContent := full,
        finalResp := if chunk.done then some (finalRespOf chunk full) else st.finalResp }

/-- The whole scan loop over the upstream body's lines. -/
def streamAccum (connAlive : Nat → Bool) (lines : List String) : StreamAcc :=
  lines.foldl (streamStep connAlive) ⟨0, "", "", "", none⟩

/-- The client-independent part of the loop state: everything but
`delivered` — write index, bytes written, accumulator, final response. -/
def accCore (st : StreamAcc) : Nat × String × String × Option ChatResponse :=
  (st.idx, st.written, st.fullContent, st.finalResp)

/-- `streamStep` acting on the client-independent state: identical code
minus the `delivered` bookkeeping, showing the loop never reads the client
connection's state. -/
def stepCore (c : Nat × String × String × Option ChatResponse) (line : String) :
    Nat × String × String × Option ChatResponse :=
  if line = "" then c
  else
    match unmarshalStreamChunk line with
    | none => c
    | some chunk =>
      let full := c.2.2.1 ++ chunk.message.content
      (c.1 + 1, c.2.1 ++ line ++ "\n", full,
       if chunk.done then some (finalRespOf chunk full) else c.2.2.2)

/-- Lines the loop forwards: nonempty and parseable as a stream chunk. -/
def streamKeep (line : String) : Bool :=
  !(line == "") && (unmarshalStreamChunk line).isSome

/-- Whether some line parses as a chunk with `done = true`. -/
def hasDoneChunk (lines : List String) : Bool :=
  lines.any (fun l => !(l == "") &&
    (match unmarshalStreamChunk l with
     | some chunk => chunk.done
     | none => false))

/-- Concatenation of lines, a newline after each. -/
def joinLines : List String → String
  | [] => ""
  | l :: rest => l ++ "\n" ++ joinLines rest

/-! ## The chat handlers (proxy.go:133-272) -/

/-- Everything observable about one streaming request: the HTTP status, the
body bytes written and those delivered to the client, the final store, the
recorder invocations (context, response) and the recorder's result. -/
structure StreamOutcome (σ ε : Type) where
  status : Nat
  written : String
  delivered : String
  store : σ
  recorderCalls : List (Ctx × ChatResponse)
  recordResult : Option (Except ε String)

/-- proxy.go `handleStreamingChat` after a successful upstream connection,
given the upstream status and body: non-200 statuses are relayed with a
generic error envelope and nothing is recorded (proxy.go:190-197); otherwise
the body is scanned line by line, and when a final response was materialized
the recorder runs once under `context.Background()` (proxy.go:257-268).  A
scanner error (`scanErr`) is only logged (proxy.go:252-254); `connAlive`
says which client writes succeed — their results are discarded. -/
def handleStreamingChat (put : Ctx → σ → Node → Except ε σ) (req : ChatRequest)
    (upStatus : Nat) (upBody : String) (scanErr : Bool) (connAlive : Nat → Bool)
    (s : σ) : StreamOutcome σ ε :=
  if upStatus ≠ 200 then
    { status := upStatus, written := errorJSON "upstream error",
      delivered := errorJSON "upstream error", store := s,
      recorderCalls := [], recordResult := none }
  else
    let st := streamAccum connAlive (scanLines upBody)
    match st.finalResp with
    | none =>
      { status := 200, written := st.written, delivered := st.delivered,
        store := s, recorderCalls := [], recordResult := none }
    | some resp =>
      let r := storeConversationTurn Ctx.background put req resp s
      { status := 200, written := st.written, delivered := st.delivered,
        store := r.1, recorderCalls := [(Ctx.background, resp)],
        recordResult := some r.2 }

/-- proxy.go `handleNonStreamingChat`: upstream failure returns 502 with a
generic envelope; otherwise the turn is recorded under the request context
(errors only logged, proxy.go:149-155) and the upstream response is returned
to the client as JSON with the default 200 status. -/
def handleNonStreamingChat (put : Ctx → σ → Node → Except ε σ) (req : ChatRequest)
    (upstream : Except String ChatResponse) (s : σ) : (Nat × String) × σ :=
  match upstream with
  | Except.error _ => ((502, errorJSON "upstream request failed"), s)
  | Except.ok resp =>
    let r := storeConversationTurn Ctx.client put req resp s
    ((200, chatResponseJSON resp), r.1)

/-- proxy.go `handleGetNode`: empty hash is a 400; any `Get` error — not
only not-found — is reported as 404 `node not found`; otherwise the node is
returned as JSON. -/
def handleGetNode (get : String → Except ε Node) (hash : String) : Nat × String :=
  if hash = "" then (400, errorJSON "hash parameter required")
  else
    match get hash with
    | Except.error _ => (404, errorJSON "node not found")
    | Except.ok node => (200, nodeJSON node)

/-! ## Concrete sample data for evaluation -/

/-- A one-message chat request. -/
def exReq : ChatRequest :=
  { model := "m", messages := [{ role := "user", content := "hi", images := [] }],
    stream := some true, format := "", keepAlive := "" }

/-- A completed chat response. -/
def exResp : ChatResponse :=
  { model := "m", createdAt := "", message := { role := "assistant", content := "yo", images := [] },
    done := true, totalDuration := 1, loadDuration := 2, promptEvalCount := 3,
    promptEvalDuration := 4, evalCount := 5, evalDuration := 6, context := [] }

/-! # Theorems -/

/-! ## Generic helpers -/

/-- String append is associative (lifted from list append). -/
theorem strAppend_assoc (a b c : String) : a ++ b ++ c = a ++ (b ++ c) := by
  rcases a with ⟨la⟩
  rcases b with ⟨lb⟩
  rcases c with ⟨lc⟩
  show String.mk (la ++ lb ++ lc) = String.mk (la ++ (lb ++ lc))
  rw [List.append_assoc]

/-- The empty string is a left identity for append. -/
theorem strNil_append (s : String) : "" ++ s = s := by
  rcases s with ⟨l⟩
  rfl

/-! ## Hex digest shape (for C3) -/

/-- Every produced hex digit lies in the lowercase alphabet. -/
theorem hexDigit_mem (n : Nat) : hexDigit n ∈ hexAlphabet := by
  have h : n % 16 < 16 := Nat.mod_lt _ (by norm_num)
  unfold hexDigit
  set k := n % 16 with hk
  interval_cases k <;> decide

/-- Hex encoding produces two characters per byte. -/
theorem hexChars_length (bs : List Nat) : (hexChars bs).length = 2 * bs.length := by
  induction bs with
  | nil => rfl
  | cons b rest ih =>
    simp [hexChars, ih]
    omega

/-- Every character of a hex encoding is a lowercase hex digit. -/
theorem hexChars_mem (bs : List Nat) (c : Char) (h : c ∈ hexChars bs) : c ∈ hexAlphabet := by
  induction bs with
  | nil => cases h
  | cons b rest ih =>
    simp only [hexChars, List.mem_cons] at h
    rcases h with h | h | h
    · rw [h]; exact hexDigit_mem _
    · rw [h]; exact hexDigit_mem _
    · exact ih h

/-- A final SHA-256 state renders to exactly 32 bytes. -/
theorem stateBytes_length (st : H8) : (stateBytes st).length = 32 := by
  simp [stateBytes, wordBytes]

/-- SHA-256 digests have 32 bytes. -/
theorem sha256_length (msg : List Nat) : (sha256 msg).length = 32 := by
  unfold sha256
  exact stateBytes_length _

/-- SHA-256 hex digests have 64 characters. -/
theorem sha256hex_length (msg : List Nat) : (sha256hex msg).length = 64 := by
  show (hexChars (sha256 msg)).length = 64
  rw [hexChars_length, sha256_length]

/-- C3: for every JSON-expressible content and every parent, `NewNode` yields
a 64-character hash drawn from the lowercase hex alphabet (it is the
SHA-256 digest of the canonical pre-image by definition), and the hash is a
deterministic function of the pair (content, parent hash): equal content and
equal parent hash give equal hashes. -/
theorem newNode_hash_hex_deterministic (c : Json) (p : Option Node) :
    (NewNode c p).Hash.length = 64
  ∧ (∀ ch, ch ∈ (NewNode c p).Hash.data → ch ∈ hexAlphabet)
  ∧ ∀ (c2 : Json) (p2 : Option Node), c = c2 → p.map Node.Hash = p2.map Node.Hash →
      (NewNode c p).Hash = (NewNode c2 p2).Hash := by
  refine ⟨sha256hex_length _, ?_, ?_⟩
  · intro ch hch
    exact hexChars_mem _ _ hch
  · intro c2 p2 hc hp
    subst hc
    show computeHash c (p.map Node.Hash) = computeHash c (p2.map Node.Hash)
    rw [hp]

/-- C3 witness: evaluated at content `"test"` with no parent. -/
theorem newNode_hash_hex_deterministic_witness :
    (NewNode (Json.str "test") none).Hash.length = 64
  ∧ '8' ∈ hexAlphabet
  ∧ (NewNode (Json.str "test") none).Hash = (NewNode (Json.str "test") none).Hash := by
  refine ⟨(newNode_hash_hex_deterministic (Json.str "test") none).1, ?_, ?_⟩
  · exact (newNode_hash_hex_deterministic (Json.str "test") none).2.1 '8' (by decide)
  · exact (newNode_hash_hex_deterministic (Json.str "test") none).2.2
      (Json.str "test") none rfl rfl

/-! ## Store idempotence (for C2) -/

/-- The existence check of `memInsert` is exactly "some record carries the
hash". -/
theorem any_hash_iff (s : List Node) (h : String) :
    (s.any (fun m => m.Hash == h) = true) ↔ 0 < countHash s h := by
  induction s with
  | nil => simp [countHash]
  | cons x rest ih =>
    cases hxh : (x.Hash == h) with
    | true => simp [countHash, List.filter_cons, hxh]
    | false => simpa [countHash, List.filter_cons, hxh] using ih

/-- Inserting a node whose hash is absent prepends it. -/
theorem memInsert_new (s : List Node) (nd : Node) (h0 : countHash s nd.Hash = 0) :
    memInsert s nd = nd :: s := by
  unfold memInsert
  have hfalse : s.any (fun m => m.Hash == nd.Hash) = false := by
    cases hy : s.any (fun m => m.Hash == nd.Hash) with
    | false => rfl
    | true =>
      have := (any_hash_iff s nd.Hash).mp hy
      omega
  rw [hfalse]
  simp

/-- Inserting a node whose hash is present changes nothing. -/
theorem memInsert_dup (s : List Node) (nd : Node) (h1 : 0 < countHash s nd.Hash) :
    memInsert s nd = s := by
  unfold memInsert
  rw [(any_hash_iff s nd.Hash).mpr h1]
  simp

/-- Prepending a node bumps its own hash count by one. -/
theorem countHash_cons_self (s : List Node) (nd : Node) :
    countHash (nd :: s) nd.Hash = countHash s nd.Hash + 1 := by
  simp [countHash, List.filter_cons]

/-- Repeated puts of a present hash all no-op. -/
theorem putN_dup (k : Nat) (s : List Node) (nd : Node) (h1 : 0 < countHash s nd.Hash) :
    putN k s nd = s := by
  induction k with
  | zero => rfl
  | succ k ih =>
    show putN k (memInsert s nd) nd = s
    rw [memInsert_dup s nd h1]
    exact ih

/-- C2: putting a node `k ≥ 1` times into a store where its hash is absent
(the linearization of any interleaving of the lock-serialized puts) leaves
exactly one record for that hash; and a put whose hash is already present
succeeds without error and changes nothing. -/
theorem put_idempotent (s : List Node) (nd : Node) (k : Nat) (hk : 1 ≤ k)
    (h0 : countHash s nd.Hash = 0) :
    countHash (putN k s nd) nd.Hash = 1
  ∧ ∀ (t : List Node), 0 < countHash t nd.Hash → memStorePut t (some nd) = Except.ok t := by
  constructor
  · obtain ⟨j, rfl⟩ : ∃ j, k = j + 1 := ⟨k - 1, by omega⟩
    show countHash (putN j (memInsert s nd) nd) nd.Hash = 1
    rw [memInsert_new s nd h0]
    rw [putN_dup j _ nd (by rw [countHash_cons_self, h0]; omega)]
    rw [countHash_cons_self, h0]
  · intro t ht
    show memStorePut t (some nd) = Except.ok t
    simp [memStorePut, memInsert_dup t nd ht]

/-- C2 witness: three puts of one node into the empty store, then a put of
the same node into a store already holding its hash. -/
theorem put_idempotent_witness :
    countHash (putN 3 [] ⟨"d0d0", none, Json.null⟩) "d0d0" = 1
  ∧ memStorePut [⟨"d0d0", none, Json.null⟩] (some ⟨"d0d0", none, Json.null⟩)
      = Except.ok [⟨"d0d0", none, Json.null⟩] := by
  have h := put_idempotent [] ⟨"d0d0", none, Json.null⟩ 3 (by norm_num) (by rfl)
  exact ⟨h.1, h.2 [⟨"d0d0", none, Json.null⟩] (by simp [countHash, List.filter_cons])⟩

/-! ## The recorder chain (for C1) -/

/-- The message loop under the in-memory put: it inserts exactly the chain
nodes, in order, and hands back the last chain node as parent. -/
theorem storeMessagesLoop_memPut (ctx : Ctx) (model : String) (msgs : List Message)
    (parent : Option Node) (s : List Node) :
    storeMessagesLoop ctx memPut model msgs parent s
      = ((messageChain model msgs parent).foldl memInsert s,
         Except.ok (chainEnd (messageChain model msgs parent) parent)) := by
  induction msgs generalizing parent s with
  | nil => rfl
  | cons m rest ih =>
    simp only [storeMessagesLoop, memPut, messageChain, List.foldl_cons]
    rw [ih]
    rfl

/-- `storeConversationTurn` under the in-memory put: inserts the whole turn
chain and returns the response node's hash. -/
theorem storeConversationTurn_memPut (ctx : Ctx) (req : ChatRequest)
    (resp : ChatResponse) (s : List Node) :
    storeConversationTurn ctx memPut req resp s
      = ((turnChain req resp).foldl memInsert s,
         Except.ok ((NewNode (respNodeContent resp)
             (chainEnd (messageChain req.model req.messages none) none)).Hash)) := by
  unfold storeConversationTurn
  rw [storeMessagesLoop_memPut]
  simp only [memPut, turnChain, List.foldl_append, List.foldl_cons, List.foldl_nil]

/-- One chain node per request message. -/
theorem messageChain_length (model : String) (msgs : List Message) (parent : Option Node) :
    (messageChain model msgs parent).length = msgs.length := by
  induction msgs generalizing parent with
  | nil => rfl
  | cons m rest ih => simp [messageChain, ih]

/-- Chain node `i` carries the content of message `i`. -/
theorem messageChain_getD_content (model : String) :
    ∀ (msgs : List Message) (parent : Option Node) (i : Nat), i < msgs.length →
      ((messageChain model msgs parent).getD i nodeDefault).Content
        = msgNodeContent model (msgs.getD i default) := by
  intro msgs
  induction msgs with
  | nil =>
    intro parent i h
    exact absurd h (by simp)
  | cons m rest ih =>
    intro parent i h
    cases i with
    | zero => rfl
    | succ j =>
      have hj : j < rest.length := by simpa using h
      exact ih (some (NewNode (msgNodeContent model m) parent)) j hj

/-- Chain node `0` links to the incoming parent; chain node `j + 1` links to
chain node `j`. -/
theorem messageChain_getD_parentHash (model : String) :
    ∀ (msgs : List Message) (parent : Option Node) (i : Nat), i < msgs.length →
      ((messageChain model msgs parent).getD i nodeDefault).ParentHash
        = (match i with
           | 0 => parent.map Node.Hash
           | j + 1 => some (((messageChain model msgs parent).getD j nodeDefault).Hash)) := by
  intro msgs
  induction msgs with
  | nil =>
    intro parent i h
    exact absurd h (by simp)
  | cons m rest ih =>
    intro parent i h
    cases i with
    | zero => rfl
    | succ j =>
      have hj : j < rest.length := by simpa using h
      have hrec := ih (some (NewNode (msgNodeContent model m) parent)) j hj
      cases j with
      | zero => exact hrec
      | succ j2 => exact hrec

/-- The parent left by a nonempty chain is its last node. -/
theorem chainEnd_getD (ch : List Node) :
    ∀ p : Option Node, ch ≠ [] → chainEnd ch p = some (ch.getD (ch.length - 1) nodeDefault) := by
  induction ch with
  | nil =>
    intro p h
    exact absurd rfl h
  | cons n rest ih =>
    intro p h
    cases rest with
    | nil => rfl
    | cons y t =>
      show chainEnd (y :: t) (some n) = _
      rw [ih (some n) (by simp)]
      exact rfl

/-- C1: for a request with messages `m1..mk` and a response, the recorder
puts exactly `k + 1` nodes forming a linear chain into the store — node `i`
carrying the message content map (`type`/`role`/`content`/`model`), the
head node carrying the response content map with metrics, each node's
parent being the previous node and the first having none — and returns the
head node's hash. -/
theorem storeConversationTurn_stores_chain (ctx : Ctx) (req : ChatRequest)
    (resp : ChatResponse) (s : List Node) :
    (storeConversationTurn ctx memPut req resp s).1 = (turnChain req resp).foldl memInsert s
  ∧ (turnChain req resp).length = req.messages.length + 1
  ∧ (∀ i, i < req.messages.length →
      ((turnChain req resp).getD i nodeDefault).Content
        = msgNodeContent req.model (req.messages.getD i default))
  ∧ ((turnChain req resp).getD req.messages.length nodeDefault).Content = respNodeContent resp
  ∧ ((turnChain req resp).getD 0 nodeDefault).ParentHash = none
  ∧ (∀ i, i + 1 ≤ req.messages.length →
      ((turnChain req resp).getD (i + 1) nodeDefault).ParentHash
        = some (((turnChain req resp).getD i nodeDefault).Hash))
  ∧ (storeConversationTurn ctx memPut req resp s).2
      = Except.ok (((turnChain req resp).getD req.messages.length nodeDefault).Hash) := by
  have hlen : (messageChain req.model req.messages none).length = req.messages.length :=
    messageChain_length req.model req.messages none
  have hresp : (turnChain req resp).getD req.messages.length nodeDefault
      = NewNode (respNodeContent resp) (chainEnd (messageChain req.model req.messages none) none) := by
    unfold turnChain
    rw [List.getD_append_right _ _ _ _ (by omega), hlen]
    simp
  refine ⟨?_, ?_, ?_, ?_, ?_, ?_, ?_⟩
  · rw [storeConversationTurn_memPut]
  · unfold turnChain
    simp [hlen]
  · intro i hi
    unfold turnChain
    rw [List.getD_append _ _ _ _ (by omega)]
    exact messageChain_getD_content req.model req.messages none i hi
  · rw [hresp]
    rfl
  · cases hmsg : req.messages with
    | nil =>
      unfold turnChain
      simp [hmsg, messageChain, chainEnd, NewNode]
    | cons m rest =>
      unfold turnChain
      rw [List.getD_append _ _ _ _ (by rw [hlen, hmsg]; simp)]
      have h0 := messageChain_getD_parentHash req.model req.messages none 0 (by rw [hmsg]; simp)
      simpa using h0
  · intro i hi
    rcases Nat.lt_or_ge (i + 1) req.messages.length with hlt | hge
    · unfold turnChain
      rw [List.getD_append _ _ _ _ (by omega), List.getD_append _ _ _ _ (by omega)]
      have hp := messageChain_getD_parentHash req.model req.messages none (i + 1) hlt
      exact hp
    · have hik : i + 1 = req.messages.length := by omega
      have hchain_ne : messageChain req.model req.messages none ≠ [] := by
        intro hnil
        rw [hnil] at hlen
        simp at hlen
        omega
      rw [hik, hresp]
      have hend := chainEnd_getD (messageChain req.model req.messages none) none hchain_ne
      show (chainEnd (messageChain req.model req.messages none) none).map Node.Hash
        = some (((turnChain req resp).getD i nodeDefault).Hash)
      rw [hend]
      unfold turnChain
      rw [List.getD_append _ _ _ _ (by omega)]
      rw [hlen]
      have hi' : i = req.messages.length - 1 := by omega
      rw [hi']
      rfl
  · rw [storeConversationTurn_memPut, hresp]

/-- C1 witness: the one-message request — two chain nodes, message content
at index 0, the head linked to it, and the head hash returned. -/
theorem storeConversationTurn_stores_chain_witness :
    (turnChain exReq exResp).length = 2
  ∧ ((turnChain exReq exResp).getD 0 nodeDefault).Content
      = msgNodeContent "m" { role := "user", content := "hi", images := [] }
  ∧ ((turnChain exReq exResp).getD 1 nodeDefault).ParentHash
      = some (((turnChain exReq exResp).getD 0 nodeDefault).Hash)
  ∧ (storeConversationTurn Ctx.client memPut exReq exResp []).2
      = Except.ok (((turnChain exReq exResp).getD 1 nodeDefault).Hash) := by
  have h := storeConversationTurn_stores_chain Ctx.client exReq exResp []
  exact ⟨h.2.1, h.2.2.1 0 (by decide), h.2.2.2.2.2.1 0 (by decide), h.2.2.2.2.2.2⟩

/-! ## The streaming loop (for C4, C5, C6, C9) -/

/-- The empty string is a right identity for append. -/
theorem strAppend_empty (s : String) : s ++ "" = s := by
  rcases s with ⟨l⟩
  show String.mk (l ++ []) = String.mk l
  rw [List.append_nil]

/-- One loop iteration writes the line plus newline exactly when the line is
kept (nonempty and parseable). -/
theorem streamStep_written (ca : Nat → Bool) (st : StreamAcc) (line : String) :
    (streamStep ca st line).written
      = st.written ++ (if streamKeep line then line ++ "\n" else "") := by
  unfold streamStep streamKeep
  by_cases hline : line = ""
  · simp [hline, strAppend_empty]
  · cases hch : unmarshalStreamChunk line with
    | none => simp [hline, hch, strAppend_empty]
    | some chunk => simp [hline, hch, strAppend_assoc]

/-- The loop writes, in order, exactly the kept lines, each followed by a
newline. -/
theorem streamAccum_written_from (ca : Nat → Bool) (lines : List String) :
    ∀ st : StreamAcc, (lines.foldl (streamStep ca) st).written
      = st.written ++ joinLines (lines.filter streamKeep) := by
  induction lines with
  | nil =>
    intro st
    exact (strAppend_empty _).symm
  | cons l rest ih =>
    intro st
    rw [List.foldl_cons, ih, streamStep_written]
    cases hk : streamKeep l with
    | true =>
      rw [List.filter_cons_of_pos hk]
      show st.written ++ (l ++ "\n") ++ joinLines (rest.filter streamKeep)
        = st.written ++ (l ++ "\n" ++ joinLines (rest.filter streamKeep))
      rw [strAppend_assoc]
    | false =>
      rw [List.filter_cons_of_neg (by simp [hk])]
      simp [strAppend_empty]

/-- C4 counterexample: an upstream body consisting of one line that does not
parse as a stream chunk is dropped entirely — the proxy does not write every
upstream line followed by a newline, so the client's byte stream can differ
from the upstream's framing. -/
theorem stream_not_byte_transparent_cex :
    (streamAccum (fun _ => true) (scanLines "nope")).written
      ≠ joinLines (scanLines "nope") := by
  decide

/-- C4 as amended: for every upstream body, the proxy writes (and flushes
per line) exactly the nonempty lines that parse as stream chunks, in order,
each followed by a newline; empty and unparseable lines are dropped, so the
client's byte stream is the concatenation of the kept lines rather than the
upstream's exact framing. -/
theorem stream_writes_parsed_lines (ca : Nat → Bool) (body : String) :
    (streamAccum ca (scanLines body)).written
      = joinLines ((scanLines body).filter streamKeep) := by
  have h := streamAccum_written_from ca (scanLines body) ⟨0, "", "", "", none⟩
  rwa [strNil_append] at h

/-- One loop iteration materializes a final response exactly when one was
already materialized or the line parses as a `done` chunk. -/
theorem streamStep_finalResp_isSome (ca : Nat → Bool) (st : StreamAcc) (line : String) :
    ((streamStep ca st line).finalResp).isSome
      = (st.finalResp.isSome
          || (!(line == "") && (match unmarshalStreamChunk line with
                                | some chunk => chunk.done
                                | none => false))) := by
  unfold streamStep
  by_cases hline : line = ""
  · simp [hline]
  · cases hch : unmarshalStreamChunk line with
    | none => simp [hline, hch]
    | some chunk =>
      by_cases hd : chunk.done
      · simp [hline, hch, hd]
      · simp [hline, hch, hd]

/-- Over any run of the loop: a final response exists exactly when some line
is a parsed `done` chunk. -/
theorem streamAccum_finalResp_isSome (ca : Nat → Bool) (lines : List String) :
    ∀ st : StreamAcc,
      ((lines.foldl (streamStep ca) st).finalResp).isSome
        = (st.finalResp.isSome || hasDoneChunk lines) := by
  induction lines with
  | nil =>
    intro st
    simp [hasDoneChunk]
  | cons l rest ih =>
    intro st
    rw [List.foldl_cons, ih, streamStep_finalResp_isSome]
    simp [hasDoneChunk, List.any_cons, Bool.or_assoc]

/-- A final response exists for a body exactly when it has a `done` chunk
line. -/
theorem streamAccum_hasDone (ca : Nat → Bool) (lines : List String) :
    ((streamAccum ca lines).finalResp).isSome = hasDoneChunk lines := by
  have h := streamAccum_finalResp_isSome ca lines ⟨0, "", "", "", none⟩
  simpa using h

/-- The loop only ever materializes final responses with role `assistant`. -/
theorem streamAccum_finalResp_role (ca : Nat → Bool) (lines : List String) :
    ∀ st : StreamAcc, (∀ r, st.finalResp = some r → r.message.role = "assistant") →
      ∀ r, (lines.foldl (streamStep ca) st).finalResp = some r →
        r.message.role = "assistant" := by
  induction lines with
  | nil =>
    intro st h r hr
    exact h r hr
  | cons l rest ih =>
    intro st h r hr
    rw [List.foldl_cons] at hr
    refine ih (streamStep ca st l) ?_ r hr
    intro r' hr'
    unfold streamStep at hr'
    by_cases hline : l = ""
    · rw [if_pos hline] at hr'
      exact h r' hr'
    · rw [if_neg hline] at hr'
      cases hch : unmarshalStreamChunk l with
      | none =>
        rw [hch] at hr'
        exact h r' hr'
      | some chunk =>
        rw [hch] at hr'
        by_cases hd : chunk.done
        · simp [hd] at hr'
          subst hr'
          rfl
        · simp [hd] at hr'
          exact h r' hr'

/-- One loop iteration's client-independent state ignores the connection. -/
theorem accCore_streamStep (ca : Nat → Bool) (st : StreamAcc) (line : String) :
    accCore (streamStep ca st line) = stepCore (accCore st) line := by
  unfold streamStep stepCore accCore
  by_cases hline : line = ""
  · simp [hline]
  · cases hch : unmarshalStreamChunk line with
    | none => simp [hline, hch]
    | some chunk => simp [hline, hch]

/-- The whole loop's client-independent state ignores the connection. -/
theorem accCore_streamAccum_from (ca : Nat → Bool) (lines : List String) :
    ∀ st : StreamAcc,
      accCore (lines.foldl (streamStep ca) st) = lines.foldl stepCore (accCore st) := by
  induction lines with
  | nil =>
    intro st
    rfl
  | cons l rest ih =>
    intro st
    rw [List.foldl_cons, List.foldl_cons, ih, accCore_streamStep]

/-- Two loop runs differing only in the client connection agree on
everything but `delivered`. -/
theorem accCore_streamAccum_indep (ca1 ca2 : Nat → Bool) (lines : List String) :
    accCore (streamAccum ca1 lines) = accCore (streamAccum ca2 lines) := by
  show accCore (lines.foldl (streamStep ca1) ⟨0, "", "", "", none⟩)
    = accCore (lines.foldl (streamStep ca2) ⟨0, "", "", "", none⟩)
  rw [accCore_streamAccum_from, accCore_streamAccum_from]

/-- C5: in the streaming path the recorder is invoked at most once per
request; it is invoked exactly when the upstream answered 200 and some
scanned line parsed as a chunk with `done = true` (a scanner error after
that still records; one before it records nothing); and the bytes and
status sent to the client do not depend on the store or on recorder
failures. -/
theorem recorder_once_iff_done {σ ε : Type} (put : Ctx → σ → Node → Except ε σ)
    (req : ChatRequest) (upStatus : Nat) (upBody : String) (scanErr : Bool)
    (connAlive : Nat → Bool) (s : σ) :
    (handleStreamingChat put req upStatus upBody scanErr connAlive s).recorderCalls.length ≤ 1
  ∧ ((handleStreamingChat put req upStatus upBody scanErr connAlive s).recorderCalls ≠ []
      ↔ (upStatus = 200 ∧ hasDoneChunk (scanLines upBody) = true))
  ∧ ∀ {σ2 ε2 : Type} (put2 : Ctx → σ2 → Node → Except ε2 σ2) (s2 : σ2),
      (handleStreamingChat put2 req upStatus upBody scanErr connAlive s2).status
        = (handleStreamingChat put req upStatus upBody scanErr connAlive s).status
    ∧ (handleStreamingChat put2 req upStatus upBody scanErr connAlive s2).written
        = (handleStreamingChat put req upStatus upBody scanErr connAlive s).written
    ∧ (handleStreamingChat put2 req upStatus upBody scanErr connAlive s2).delivered
        = (handleStreamingChat put req upStatus upBody scanErr connAlive s).delivered := by
  by_cases h200 : upStatus = 200
  · subst h200
    have hdone := streamAccum_hasDone connAlive (scanLines upBody)
    cases hfr : (streamAccum connAlive (scanLines upBody)).finalResp with
    | none =>
      rw [hfr] at hdone
      refine ⟨?_, ?_, ?_⟩
      · simp [handleStreamingChat, hfr]
      · simp [handleStreamingChat, hfr]
        exact hdone.symm
      · intro σ2 ε2 put2 s2
        simp [handleStreamingChat, hfr]
    | some resp =>
      rw [hfr] at hdone
      refine ⟨?_, ?_, ?_⟩
      · simp [handleStreamingChat, hfr]
      · simp [handleStreamingChat, hfr, ← hdone]
      · intro σ2 ε2 put2 s2
        simp [handleStreamingChat, hfr]
  · refine ⟨?_, ?_, ?_⟩
    · simp [handleStreamingChat, h200]
    · simp [handleStreamingChat, h200]
    · intro σ2 ε2 put2 s2
      simp [handleStreamingChat, h200]

/-- C5 witness: a body with one `done` chunk line, against the empty store —
the recorder fires, and at most once. -/
theorem recorder_once_iff_done_witness :
    (handleStreamingChat memPut exReq 200 "\x7b\"done\":true\x7d" false
        (fun _ => true) ([] : List Node)).recorderCalls ≠ []
  ∧ (handleStreamingChat memPut exReq 200 "\x7b\"done\":true\x7d" false
        (fun _ => true) ([] : List Node)).recorderCalls.length ≤ 1 := by
  have h := recorder_once_iff_done memPut exReq 200 "\x7b\"done\":true\x7d" false
    (fun _ => true) ([] : List Node)
  exact ⟨h.2.1.mpr ⟨rfl, by decide⟩, h.1⟩

/-- C6: the client connection's fate changes nothing but the bytes that
happen to be delivered — the proxy consumes and accumulates the whole
upstream body either way, the store ends identical, and the recorder, when
invoked, always runs under the detached background context. -/
theorem client_disconnect_independent {σ ε : Type} (put : Ctx → σ → Node → Except ε σ)
    (req : ChatRequest) (upStatus : Nat) (upBody : String) (scanErr : Bool)
    (ca1 ca2 : Nat → Bool) (s : σ) :
    (handleStreamingChat put req upStatus upBody scanErr ca1 s).written
      = (handleStreamingChat put req upStatus upBody scanErr ca2 s).written
  ∧ (handleStreamingChat put req upStatus upBody scanErr ca1 s).store
      = (handleStreamingChat put req upStatus upBody scanErr ca2 s).store
  ∧ (handleStreamingChat put req upStatus upBody scanErr ca1 s).recorderCalls
      = (handleStreamingChat put req upStatus upBody scanErr ca2 s).recorderCalls
  ∧ (handleStreamingChat put req upStatus upBody scanErr ca1 s).recordResult
      = (handleStreamingChat put req upStatus upBody scanErr ca2 s).recordResult
  ∧ ∀ c r, (c, r) ∈ (handleStreamingChat put req upStatus upBody scanErr ca1 s).recorderCalls →
      c = Ctx.background := by
  by_cases h200 : upStatus = 200
  · subst h200
    have hacc := accCore_streamAccum_indep ca1 ca2 (scanLines upBody)
    have hwritten : (streamAccum ca1 (scanLines upBody)).written
        = (streamAccum ca2 (scanLines upBody)).written :=
      congrArg (fun t => t.2.1) hacc
    have hfr : (streamAccum ca1 (scanLines upBody)).finalResp
        = (streamAccum ca2 (scanLines upBody)).finalResp :=
      congrArg (fun t => t.2.2.2) hacc
    cases hfr1 : (streamAccum ca1 (scanLines upBody)).finalResp with
    | none =>
      have hfr2 : (streamAccum ca2 (scanLines upBody)).finalResp = none := by
        rw [← hfr, hfr1]
      simp [handleStreamingChat, hfr1, hfr2, hwritten]
    | some resp =>
      have hfr2 : (streamAccum ca2 (scanLines upBody)).finalResp = some resp := by
        rw [← hfr, hfr1]
      simp [handleStreamingChat, hfr1, hfr2, hwritten]
  · simp [handleStreamingChat, h200]

/-- C6 witness: a connection that dies after zero writes versus one that
stays up — identical store, identical recorder activity, background
context. -/
theorem client_disconnect_independent_witness :
    (handleStreamingChat memPut exReq 200 "\x7b\"done\":true\x7d" false
        (fun _ => true) ([] : List Node)).store
      = (handleStreamingChat memPut exReq 200 "\x7b\"done\":true\x7d" false
        (fun _ => false) ([] : List Node)).store
  ∧ Ctx.background = Ctx.background := by
  have h := client_disconnect_independent memPut exReq 200 "\x7b\"done\":true\x7d" false
    (fun _ => true) (fun _ => false) ([] : List Node)
  refine ⟨h.2.1, ?_⟩
  exact h.2.2.2.2 Ctx.background
    { model := "", createdAt := "",
      message := { role := "assistant", content := "", images := [] }, done := true,
      totalDuration := 0, loadDuration := 0, promptEvalCount := 0, promptEvalDuration := 0,
      evalCount := 0, evalDuration := 0, context := [] }
    (by decide)

/-- C9: every final response the streaming loop materializes carries the
constant role `assistant`, whatever the upstream chunks said, and hence the
recorded response node's content has role `assistant`. -/
theorem stream_response_role_assistant (ca : Nat → Bool) (lines : List String)
    (r : ChatResponse) (h : (streamAccum ca lines).finalResp = some r) :
    r.message.role = "assistant"
  ∧ Json.field (respNodeContent r) "role" = some (Json.str "assistant") := by
  have hrole := streamAccum_finalResp_role ca lines ⟨0, "", "", "", none⟩
    (fun r' hr' => by cases hr') r h
  refine ⟨hrole, ?_⟩
  have hf : Json.field (respNodeContent r) "role" = some (Json.str r.message.role) := rfl
  rw [hf, hrole]

/-- C9 witness: a `done` chunk whose message carries role `user` still
materializes an `assistant` response. -/
theorem stream_response_role_assistant_witness :
    ({ model := "", createdAt := "",
       message := { role := "assistant", content := "", images := [] }, done := true,
       totalDuration := 0, loadDuration := 0, promptEvalCount := 0, promptEvalDuration := 0,
       evalCount := 0, evalDuration := 0, context := [] } : ChatResponse).message.role
      = "assistant" := by
  exact (stream_response_role_assistant (fun _ => true)
    ["\x7b\"message\":\x7b\"role\":\"user\"\x7d,\"done\":true\x7d"] _ (by decide)).1

/-! ## Upstream errors, recorder errors, lookup errors (C7, C8, C10) -/

/-- C7 counterexample: for upstream status 500 with body `boom` the proxy
relays the status but answers with the generic error envelope, not the
upstream body. -/
theorem upstream_error_body_not_relayed_cex :
    (handleStreamingChat memPut exReq 500 "boom" false (fun _ => true)
        ([] : List Node)).status = 500
  ∧ (handleStreamingChat memPut exReq 500 "boom" false (fun _ => true)
        ([] : List Node)).written ≠ "boom"
  ∧ (handleStreamingChat memPut exReq 500 "boom" false (fun _ => true)
        ([] : List Node)).recorderCalls = [] := by
  refine ⟨rfl, by decide, rfl⟩

/-- C7 as amended: whenever the upstream answers with a status other than
200 (in particular any non-2xx status), the proxy responds with that same
status code and the generic JSON body `{"error":"upstream error"}` — the
upstream body is logged, not relayed — and the recorder is not invoked, so
no nodes are stored for that request. -/
theorem upstream_error_generic_envelope {σ ε : Type} (put : Ctx → σ → Node → Except ε σ)
    (req : ChatRequest) (upBody : String) (scanErr : Bool) (ca : Nat → Bool) (s : σ)
    (upStatus : Nat) (h : upStatus ≠ 200) :
    (handleStreamingChat put req upStatus upBody scanErr ca s).status = upStatus
  ∧ (handleStreamingChat put req upStatus upBody scanErr ca s).written
      = errorJSON "upstream error"
  ∧ (handleStreamingChat put req upStatus upBody scanErr ca s).recorderCalls = []
  ∧ (handleStreamingChat put req upStatus upBody scanErr ca s).recordResult = none
  ∧ (handleStreamingChat put req upStatus upBody scanErr ca s).store = s := by
  simp [handleStreamingChat, h]

/-- C7 witness: evaluated at upstream status 500. -/
theorem upstream_error_generic_envelope_witness :
    (handleStreamingChat memPut exReq 500 "boom" false (fun _ => true)
        ([] : List Node)).status = 500
  ∧ (handleStreamingChat memPut exReq 500 "boom" false (fun _ => true)
        ([] : List Node)).store = [] := by
  have h := upstream_error_generic_envelope memPut exReq "boom" false (fun _ => true)
    ([] : List Node) 500 (by decide)
  exact ⟨h.1, h.2.2.2.2⟩

/-- C8: in the non-streaming path, even when the recorder fails after a
successful upstream response, the client still receives the upstream chat
response as JSON with the success status — byte-identical to the response
sent when recording succeeds under any other store. -/
theorem nonstreaming_record_failure_hidden {σ ε : Type} (put : Ctx → σ → Node → Except ε σ)
    (req : ChatRequest) (resp : ChatResponse) (s : σ) (e : ε)
    (herr : (storeConversationTurn Ctx.client put req resp s).2 = Except.error e) :
    (handleNonStreamingChat put req (Except.ok resp) s).1 = (200, chatResponseJSON resp)
  ∧ ∀ {σ2 ε2 : Type} (put2 : Ctx → σ2 → Node → Except ε2 σ2) (s2 : σ2),
      (handleNonStreamingChat put2 req (Except.ok resp) s2).1
        = (handleNonStreamingChat put req (Except.ok resp) s).1 := by
  constructor
  · rfl
  · intro σ2 ε2 put2 s2
    rfl

/-- C8 witness: a store whose every put fails with `disk full`. -/
theorem nonstreaming_record_failure_hidden_witness :
    (handleNonStreamingChat (fun _ _ _ => Except.error "disk full") exReq
        (Except.ok exResp) ([] : List Node)).1 = (200, chatResponseJSON exResp) :=
  (nonstreaming_record_failure_hidden (fun _ _ _ => Except.error "disk full") exReq exResp
    ([] : List Node) "disk full" rfl).1

/-- C10: `GET /dag/node/:hash` answers 404 with `{"error":"node not found"}`
whenever the store's `Get` returns any error value whatsoever — storage and
corruption failures included, not only not-found. -/
theorem getNode_any_error_404 {ε : Type} (get : String → Except ε Node) (hash : String)
    (e : ε) (hne : hash ≠ "") (herr : get hash = Except.error e) :
    handleGetNode get hash = (404, errorJSON "node not found") := by
  unfold handleGetNode
  rw [if_neg hne, herr]

/-- C10 witness: a `Get` failing with a corruption error. -/
theorem getNode_any_error_404_witness :
    handleGetNode (fun _ => Except.error "corruption: malformed stored content") "abc"
      = (404, errorJSON "node not found") :=
  getNode_any_error_404 (fun _ => Except.error "corruption: malformed stored content")
    "abc" "corruption: malformed stored content" (by decide) rfl
